import Mathlib

/-!
Verification of the Pixie-16 SDK crate, AFE-calibration and configuration
subsystems against their natural-language specification.

The development shallowly embeds the relevant C++ code:

* src/sdk/src/pixie/pixie16/fixture.cpp
    channel_baseline (histogram baseline estimation and the noise-tolerant
    comparison operators), linear_fit, afe_dbs::boot (ADC polarity swap
    detection), afe_dbs::adjust_offsets (offset DAC feedback loop),
    db04::set_dac (DAC command word assembly).
* src/sdk/src/pixie/pixie16/crate.cpp
    crate::boot (parallel boot workers and error propagation),
    crate::shutdown, and the ready gate of each crate entrypoint.
* src/sdk/src/pixie/config.cpp
    import_json, channel-variable section.

C++ double values are modelled as rationals; the C++ cast from double to
int (truncation toward zero) is modelled by ratTrunc below. Machine ints
are modelled as Int or Nat: none of the quantities involved approaches the
32/64-bit overflow boundaries in the scenarios covered by the claims, and
the claims are about value-level arithmetic, not wraparound.
-/

namespace PixieSDK

/-- Truncation of a rational toward zero, the semantics of the C++ cast
from double to int used throughout fixture.cpp. -/
def ratTrunc (q : ℚ) : ℤ := q.num.tdiv q.den

/-- Error kinds of pixie::error, restricted to the kinds the embedded code
can raise (error.hpp, spec section 7). -/
inductive ErrorCode where
  | success
  | crate_not_ready
  | crate_already_open
  | module_not_found
  | module_number_invalid
  | module_offline
  | module_initialize_failure
  | channel_number_invalid
  | invalid_value
  | config_json_error
  | file_open_failure
  | internal_failure
deriving DecidableEq

/-- State of struct channel_baseline (fixture.cpp lines 121-146): the
noise_bins constant is 30, noise_percent defaults to 0.5, bins is the
sample histogram. C++ doubles are modelled as rationals. -/
structure ChannelBaseline where
  channel : ℤ
  adc_bits : ℕ
  noise_percent : ℚ
  runs : ℕ
  baseline : ℤ
  bins : List ℕ
deriving DecidableEq

/-- Default construction channel_baseline(noise_percent = 0.5) with the
clamp of noise_percent into [0, 100] (fixture.cpp lines 317-324). -/
def cbMake (noise_percent : ℚ) : ChannelBaseline :=
  { channel := -1, adc_bits := 0,
    noise_percent :=
      if noise_percent > 100 then 100
      else if noise_percent < 0 then 0
      else noise_percent,
    runs := 0, baseline := -1, bins := [] }

/-- Noise range of channel_baseline::operator==(const int) (fixture.cpp
lines 373-380): range is 1 unless noise_percent is positive, in which case
it is the int cast of (1 << adc_bits) * (noise_percent / 100). -/
def cbRange (cb : ChannelBaseline) : ℤ :=
  if 0 < cb.noise_percent then
    ratTrunc ((2 ^ cb.adc_bits : ℚ) * (cb.noise_percent / 100))
  else 1

/-- channel_baseline::operator==(const int bl): noise-tolerant comparison,
baseline within [bl - range, bl + range] (fixture.cpp lines 373-380). -/
def cb_eq_int (cb : ChannelBaseline) (bl : ℤ) : Bool :=
  decide (bl - cbRange cb ≤ cb.baseline) && decide (cb.baseline ≤ bl + cbRange cb)

/-- channel_baseline::operator!=(const int bl) (fixture.cpp lines 382-385). -/
def cb_neq_int (cb : ChannelBaseline) (bl : ℤ) : Bool := !(cb_eq_int cb bl)

/-- channel_baseline::operator==(const channel_baseline) (fixture.cpp lines
363-366): note this is EXACT integer equality of the two baseline fields,
with no noise tolerance. -/
def cb_eq_cb (a b : ChannelBaseline) : Bool := a.baseline == b.baseline

/-- channel_baseline::operator!=(const channel_baseline) (fixture.cpp lines
368-371). The source body is written as a comparison of *this with
other.baseline, an int, so it resolves to the int overload (no
self-recursion): the negation of the noise-tolerant comparison. -/
def cb_neq_cb (a b : ChannelBaseline) : Bool := cb_neq_int a b.baseline

/-- channel_baseline::start (fixture.cpp lines 326-333): the bin vector is
cleared and resized to 1 << adc_bits. -/
def cb_start (cb : ChannelBaseline) (channel : ℤ) (adc_bits : ℕ) : ChannelBaseline :=
  { cb with channel := channel, adc_bits := adc_bits,
            bins := List.replicate (2 ^ adc_bits) 0,
            runs := 0, baseline := -1 }

/-- Bin index selected by channel_baseline::update for one ADC sample
(fixture.cpp lines 353-361): the source clamps only samples strictly
greater than bins.size(), so a sample exactly equal to bins.size() is
passed through unchanged. -/
def update_bin_index (nbins sample : ℕ) : ℕ :=
  if nbins < sample then nbins - 1 else sample

/-- channel_baseline::update over one trace (fixture.cpp lines 353-361).
The List.set used here silently drops the increment when the selected
index is out of range; in the C++ source that case is an out-of-bounds
vector write (see the C10 theorem on update_bin_index). -/
def cb_update (cb : ChannelBaseline) (trace : List ℕ) : ChannelBaseline :=
  { cb with runs := cb.runs + 1,
            bins := trace.foldl (fun bs s =>
              let i := update_bin_index bs.length s
              bs.set i (bs.getD i 0 + 1)) cb.bins }

/-- Swap flag computed for one channel by afe_dbs::boot (fixture.cpp lines
601-611): an even channel is flagged when the two channel_baseline values
compare equal with operator==(channel_baseline), an odd channel when they
compare unequal with operator!=(channel_baseline). -/
def swap_flag (chan : ℕ) (bl_same bl_moved : ChannelBaseline) : Bool :=
  if chan % 2 = 0 then cb_eq_cb bl_same bl_moved else cb_neq_cb bl_same bl_moved

/-- Noise-tolerant baseline equality exactly as the specification words it
(spec section 4.3.1): two baselines are equal iff they differ by at most
(2 raised to adc_bits) times noise_percent / 100. Modelled from the spec
for comparison with the source operators. -/
def noiseTolEqSpec (a b : ChannelBaseline) : Bool :=
  decide (|(a.baseline : ℚ) - (b.baseline : ℚ)| ≤
    (2 ^ a.adc_bits : ℚ) * a.noise_percent / 100)

/-- Swap flag as claim C1 words it: both the even and the odd case use the
noise-tolerant baseline equality. Modelled from the spec for comparison
with swap_flag. -/
def swappedClaimSpec (chan : ℕ) (a b : ChannelBaseline) : Bool :=
  if chan % 2 = 0 then noiseTolEqSpec a b else !(noiseTolEqSpec a b)

/-- Concrete baseline pair used in the C1 and C8 counterexamples: a
14-bit channel with default 0.5 percent noise whose two measured baselines
are 100 and 101. They differ by 1, far below the 81-count noise range. -/
def cbA : ChannelBaseline :=
  { channel := 0, adc_bits := 14, noise_percent := 1 / 2,
    runs := 1, baseline := 100, bins := [] }

/-- Second concrete baseline of the C1 and C8 counterexamples. -/
def cbB : ChannelBaseline :=
  { channel := 0, adc_bits := 14, noise_percent := 1 / 2,
    runs := 1, baseline := 101, bins := [] }

/-- One comparison step of std::max_element over the bin histogram: the
current best index is replaced only by an index holding a strictly larger
count, so the first maximum is kept. -/
def argmaxStep (l : List ℕ) (best i : ℕ) : ℕ :=
  if l.getD best 0 < l.getD i 0 then i else best

/-- Index of the first maximal element of the bin histogram, the value of
std::max_element in channel_baseline::end (fixture.cpp line 340). -/
def argmaxFirst (l : List ℕ) : ℕ :=
  (List.range l.length).foldl (argmaxStep l) 0

/-- channel_baseline::end (fixture.cpp lines 335-351): weighted mean of the
bins within noise_bins = 30 of the first maximal bin, by integer division.
The loop from from_bin to to_bin is rendered as a map-sum over
List.range'. -/
def cbEnd (bins : List ℕ) : ℕ :=
  let max_bin := argmaxFirst bins
  let from_bin := max_bin - 30
  let to_bin := min (max_bin + 30) bins.length
  let sum := ((List.range' from_bin (to_bin - from_bin)).map
    (fun b => b * bins.getD b 0)).sum
  let samples := ((List.range' from_bin (to_bin - from_bin)).map
    (fun b => bins.getD b 0)).sum
  sum / samples

/-- Baseline estimate exactly as claim C4 words it: the integer weighted
mean of the buckets in the half-open range from max(0, m - 30) to
min(2 raised to adc_bits, m + 30), with m the index of the max-count
bucket. Modelled from the spec for comparison with cbEnd. -/
def cbEndSpec (adc_bits : ℕ) (bins : List ℕ) : ℕ :=
  let m := argmaxFirst bins
  (∑ b ∈ Finset.Ico (m - 30) (min (m + 30) (2 ^ adc_bits)), b * bins.getD b 0) /
  (∑ b ∈ Finset.Ico (m - 30) (min (m + 30) (2 ^ adc_bits)), bins.getD b 0)

/-- State of struct linear_fit over int samples (fixture.cpp lines 61-97):
running sums are C++ doubles, modelled as rationals; count is an int that
only ever increments. -/
structure LinearFit where
  k : ℚ
  c : ℚ
  sum_x : ℚ
  sum_y : ℚ
  sum_xy : ℚ
  sum_x_sq : ℚ
  count : ℕ
deriving DecidableEq

/-- linear_fit default construction: all fields zero. -/
def lf_init : LinearFit := ⟨0, 0, 0, 0, 0, 0, 0⟩

/-- linear_fit::update (fixture.cpp lines 80-86). -/
def lf_update (f : LinearFit) (x y : ℤ) : LinearFit :=
  { f with sum_x := f.sum_x + x, sum_y := f.sum_y + y,
           sum_xy := f.sum_xy + x * y, sum_x_sq := f.sum_x_sq + x * x,
           count := f.count + 1 }

/-- linear_fit::calc (fixture.cpp lines 88-92): least-squares slope and
intercept from the running sums. Division by a zero divisor yields 0 in
the rational model (the C++ doubles would produce inf or nan there; no
claim depends on that case). -/
def lf_calc (f : LinearFit) : LinearFit :=
  let divisor := f.sum_x * f.sum_x - (f.count : ℚ) * f.sum_x_sq
  { f with
    k := (f.sum_x * f.sum_y - (f.count : ℚ) * f.sum_xy) / divisor,
    c := (f.sum_x * f.sum_xy - f.sum_y * f.sum_x_sq) / divisor }

/-- linear_fit::y (fixture.cpp lines 94-96) followed by the C++ conversion
of the double result back to int: truncation toward zero. -/
def lf_y (f : LinearFit) (x : ℤ) : ℤ := ratTrunc (f.k * x + f.c)

/-- Accumulation of a list of (baseline, DAC) samples into a linear_fit,
one update per sample in order. -/
def lfFold (l : List (ℤ × ℤ)) : LinearFit :=
  l.foldl (fun f p => lf_update f p.1 p.2) lf_init

/-- Sum of the x components of the recorded samples, as a rational. -/
def sumX (l : List (ℤ × ℤ)) : ℚ := (l.map (fun p => (p.1 : ℚ))).sum

/-- Sum of the y components of the recorded samples, as a rational. -/
def sumY (l : List (ℤ × ℤ)) : ℚ := (l.map (fun p => (p.2 : ℚ))).sum

/-- Sum of the products x times y of the recorded samples. -/
def sumXY (l : List (ℤ × ℤ)) : ℚ := (l.map (fun p => (p.1 : ℚ) * (p.2 : ℚ))).sum

/-- Sum of the squares of the x components of the recorded samples. -/
def sumXX (l : List (ℤ × ℤ)) : ℚ := (l.map (fun p => (p.1 : ℚ) * (p.1 : ℚ))).sum

/-- Least-squares divisor exactly as claim C3 words it, over the list of
recorded samples. -/
def lsDivisor (l : List (ℤ × ℤ)) : ℚ :=
  sumX l * sumX l - (l.length : ℚ) * sumXX l

/-- Least-squares slope k exactly as claim C3 words it. -/
def lsK (l : List (ℤ × ℤ)) : ℚ :=
  (sumX l * sumY l - (l.length : ℚ) * sumXY l) / lsDivisor l

/-- Least-squares intercept c exactly as claim C3 words it. -/
def lsC (l : List (ℤ × ℤ)) : ℚ :=
  (sumX l * sumXY l - sumY l * sumXX l) / lsDivisor l

/-- DAC value predicted by the least-squares fit over the recorded samples
at the given target, as claim C3 words it: k times target plus c, as an
int. -/
def specLSDac (l : List (ℤ × ℤ)) (target : ℤ) : ℤ :=
  ratTrunc (lsK l * (target : ℚ) + lsC l)

/-- Per-channel body of one outer-loop iteration of afe_dbs::adjust_offsets
for a channel with an offset DAC (fixture.cpp lines 749-773): when the
measured baseline differs noise-tolerantly from the target, the
(baseline, DAC) pair is recorded, then the DAC is either nudged by the
fixed step dac_slope_learn_steps = 200 (fewer than linear_fit_samples = 2
samples recorded) or set from the recomputed least-squares fit. Returns
the updated fit, the new DAC and the run_again flag contribution. -/
def adjust_channel_step (bl : ChannelBaseline) (adc_target : ℤ)
    (fit : LinearFit) (dac : ℤ) : LinearFit × ℤ × Bool :=
  if cb_neq_int bl adc_target then
    let fit2 := lf_update fit bl.baseline dac
    let dac2 :=
      if fit2.count < 2 then
        (if adc_target > bl.baseline then dac - 200 else dac + 200)
      else lf_y (lf_calc fit2) adc_target
    (fit2, dac2, true)
  else (fit, dac, false)

/-- Concrete channel_baseline for the C3 witness: noise_percent 0, so the
noise range is the default 1 and the comparison is decidable by kernel
reduction. -/
def cbW : ChannelBaseline :=
  { channel := 0, adc_bits := 12, noise_percent := 0,
    runs := 1, baseline := 100, bins := [] }

/-- Result of one db04::set_dac call that passed the range check
(fixture.cpp lines 487-550): the port selected through select_port, the
32-bit word written to the CFG_DAC register, and the microseconds slept
afterwards. -/
structure Db04DacWrite where
  port : ℕ
  word : ℕ
  wait_us : ℕ
deriving DecidableEq

/-- Switch statement of db04::set_dac computing dac_ctrl (fixture.cpp
lines 512-532): 0x30 plus the PCB ADC-swap compensation for the DB channel
offset; the default case of the switch adds nothing. -/
def db04_dac_ctrl (offset : ℕ) : ℕ :=
  0x30 +
    (match offset with
     | 0 | 4 => 1
     | 1 | 5 => 2
     | 2 | 6 => 0
     | 3 | 7 => 3
     | _ => 0)

/-- db04::set_dac (fixture.cpp lines 487-550): values above 65535 raise
invalid_value; otherwise the module port number + 1 is selected, the
command word (dac_addr shifted left 24) or (dac_ctrl shifted left 16) or
value is written to CFG_DAC, and the fixture sleeps 6000 microseconds.
dac_addr sets bit 1 when the DB channel offset is below 4. -/
def db04_set_dac (number offset value : ℕ) : Except ErrorCode Db04DacWrite :=
  if value > 65535 then Except.error ErrorCode.invalid_value
  else
    let dac_addr : ℕ := 0x20 ||| ((if offset < 4 then 1 else 0) <<< 1)
    let dac_ctrl : ℕ := db04_dac_ctrl offset
    Except.ok { port := number + 1,
                word := (dac_addr <<< 24) ||| (dac_ctrl <<< 16) ||| value,
                wait_us := 6000 }

/-- Output mapping of claim C6: offsets 0 and 4 go to 1, offsets 1 and 5
to 2, offsets 2 and 6 to 0, offsets 3 and 7 to 3 (spec section 4.3.2).
Modelled from the spec for comparison with db04_set_dac. -/
def sigmaDb04 (offset : ℕ) : ℕ :=
  match offset with
  | 0 | 4 => 1
  | 1 | 5 => 2
  | 2 | 6 => 0
  | 3 | 7 => 3
  | _ => 0

/-- DAC command word exactly as claim C6 words it: (addr shifted left 24)
or (ctrl shifted left 16) or value, with addr = 0x20 or (2 when the DB
channel offset is below 4, else 0) and ctrl = 0x30 + sigma of the offset.
Modelled from the spec for comparison with db04_set_dac. -/
def db04WordSpec (offset value : ℕ) : ℕ :=
  ((0x20 ||| (if offset < 4 then 2 else 0)) <<< 24) |||
  ((0x30 + sigmaDb04 offset) <<< 16) ||| value

/-- Per-module state crate::boot consults when deciding whether to spawn a
worker (crate.cpp line 221): the module revision and whether the module is
already online. -/
structure ModState where
  revision : ℕ
  online : Bool
deriving DecidableEq

/-- Target modules of crate::boot (crate.cpp lines 194-238): the requested
set is the explicit list, or every module index when the list is empty;
modules with revision 0, and modules already online when force is false,
are skipped. -/
def bootTargets (force : Bool) (mods : List ModState) (pmods : List ℕ) : List ℕ :=
  let nums := if pmods.isEmpty then List.range mods.length else pmods
  nums.filter (fun n =>
    let m := mods.getD n { revision := 0, online := false }
    !(m.revision == 0 || (!force && m.online)))

/-- First-error accumulation of crate::boot and crate::initialize_afe
(crate.cpp lines 240-248): the running kind is replaced only while it is
still success. -/
def firstErrorFold (l : List ErrorCode) : ErrorCode :=
  l.foldl (fun acc e => if acc = ErrorCode.success then e else acc)
    ErrorCode.success

/-- Observable outcome of one crate::boot call: how many workers were
spawned, the call result, and whether backplane.reinit was reached. -/
structure BootRun where
  workers : ℕ
  result : Except ErrorCode Unit
  backplane_reinit : Bool

/-- crate::boot (crate.cpp lines 189-255). Explicit module numbers are
validated first (module_number_invalid). One worker is spawned per target
module; outcome gives the error kind each worker publishes through its
promise. After joining, the first non-success kind is remembered; if one
exists the call throws it, and only otherwise is backplane.reinit
reached (the throw on line 251 precedes the reinit on line 254). -/
def crate_boot_model (force : Bool) (mods : List ModState) (pmods : List ℕ)
    (outcome : ℕ → ErrorCode) : BootRun :=
  if pmods.any (fun n => decide (mods.length ≤ n)) then
    { workers := 0, result := Except.error ErrorCode.module_number_invalid,
      backplane_reinit := false }
  else
    let targets := bootTargets force mods pmods
    let fe := firstErrorFold (targets.map outcome)
    if fe = ErrorCode.success then
      { workers := targets.length, result := Except.ok (), backplane_reinit := true }
    else
      { workers := targets.length, result := Except.error fe,
        backplane_reinit := false }

/-- crate::shutdown (crate.cpp lines 134-150): close is attempted on every
online module; a caught pixie error stores its kind in first_error WITHOUT
checking whether first_error is still success (unlike crate::boot), so
each captured failure overwrites the previous one. After the loop the
stored kind, if not success, is thrown. closes lists the per-module close
outcomes in module order, none meaning close succeeded. -/
def crate_shutdown_model (closes : List (Option ErrorCode)) : Except ErrorCode Unit :=
  let fe := closes.foldl (fun acc r =>
    match r with
    | none => acc
    | some k => k) ErrorCode.success
  if fe = ErrorCode.success then Except.ok () else Except.error fe

/-- crate::ready (crate.cpp lines 56-60): throws crate_not_ready unless the
ready flag is set. -/
def ready_check (rdy : Bool) : Except ErrorCode Unit :=
  if rdy then Except.ok () else Except.error ErrorCode.crate_not_ready

/-- Guard prelude of crate::probe (crate.cpp line 176): ready is checked.
The body past the guard is abstracted. -/
def crate_probe_entry (rdy : Bool) : Except ErrorCode Unit := ready_check rdy

/-- Guard prelude of crate::assign (crate.cpp line 403). -/
def crate_assign_entry (rdy : Bool) : Except ErrorCode Unit := ready_check rdy

/-- Guard prelude of crate::set_firmware (crate.cpp line 259). -/
def crate_set_firmware_entry (rdy : Bool) : Except ErrorCode Unit := ready_check rdy

/-- Guard prelude of crate::import_config (crate.cpp line 280). -/
def crate_import_config_entry (rdy : Bool) : Except ErrorCode Unit := ready_check rdy

/-- Guard prelude of crate::initialize_afe (crate.cpp line 295). -/
def crate_initialize_afe_entry (rdy : Bool) : Except ErrorCode Unit := ready_check rdy

/-- Guard prelude of crate::boot (crate.cpp lines 194-209): an explicit,
non-empty module list is validated against the module count BEFORE ready
is checked, so an out-of-range number throws module_number_invalid even on
an uninitialized crate. -/
def crate_boot_entry (rdy : Bool) (num_modules : ℕ) (pmods : List ℕ) :
    Except ErrorCode Unit :=
  if pmods.isEmpty then ready_check rdy
  else if pmods.any (fun m => decide (num_modules ≤ m)) then
    Except.error ErrorCode.module_number_invalid
  else ready_check rdy

/-- Guard prelude of crate::export_config (crate.cpp lines 341-345): the
source takes the crate lock and exports, with NO ready check. -/
def crate_export_config_entry (_rdy : Bool) : Except ErrorCode Unit :=
  Except.ok ()

/-- Channel-variable import of config::import_json (config.cpp lines
269-315) for one writable channel variable, reduced to its value
arithmetic: desc_size is the descriptor size, num_channels the module
channel count, values the JSON integer array. Returns none when the
array length is not a multiple of desc_size (the source skips the
variable with a warning), otherwise the ordered list of
(channel, value-offset, element) writes performed through
write_var(io = false). A short array is first extended by pushing one
copy of element 0 per missing channel; the write loop then covers
channels below both num_channels and the recomputed vchannels. -/
def import_channel_var (desc_size num_channels : ℕ) (values : List ℕ) :
    Option (List (ℕ × ℕ × ℕ)) :=
  if values.length % desc_size = 0 then
    let vchannels := values.length / desc_size
    let ext :=
      if vchannels < num_channels then
        values ++ List.replicate (num_channels - vchannels) (values.getD 0 0)
      else values
    let vch2 := ext.length / desc_size
    some (((List.range num_channels).filter
        (fun ch => decide (ch < vch2) && decide (ch * desc_size < ext.length))).flatMap
      (fun ch => (List.range desc_size).map
        (fun v => (ch, v, ext.getD (ch * desc_size + v) 0))))
  else none

/-- Channel-variable import exactly as claim C9 words it: the array is
extended by replicating the element at index 0 until num_channels channels
are covered, elements beyond num_channels times var_size are truncated,
and each retained element is written. Rendered for the var_size = 1 shape
the claim describes: one element per channel. Modelled from the spec for
comparison with import_channel_var. -/
def importChannelVarSpec (num_channels : ℕ) (values : List ℕ) :
    List (ℕ × ℕ × ℕ) :=
  (List.range num_channels).map
    (fun ch => (ch, 0,
      if ch < values.length then values.getD ch 0 else values.getD 0 0))

/-- Truncation toward zero agrees with the floor on nonnegative
rationals. -/
lemma ratTrunc_eq_floor (q : ℚ) (h : 0 ≤ q) : ratTrunc q = ⌊q⌋ := by
  rw [ratTrunc, Rat.floor_def]
  exact Int.tdiv_eq_ediv (Rat.num_nonneg.mpr h) (by exact_mod_cast (Rat.den_pos q).le)

/-- Numeric value of the noise range of the 14-bit, 0.5 percent baseline
cbA: the int cast of 16384 * 0.005 = 81.92 is 81. -/
lemma cbRange_cbA : cbRange cbA = 81 := by
  have h0 : (0 : ℚ) < cbA.noise_percent := by norm_num [cbA]
  have h1 : ((2 : ℚ) ^ cbA.adc_bits * (cbA.noise_percent / 100)) = 2048 / 25 := by
    norm_num [cbA]
  rw [cbRange, if_pos h0, h1, ratTrunc_eq_floor _ (by norm_num)]
  norm_num

/-- Characterization of the int overload operator!= as an absolute-value
bound: the comparison fails exactly when the baseline is more than the
noise range away from the compared value. -/
lemma cb_neq_int_iff (a : ChannelBaseline) (bl : ℤ) :
    cb_neq_int a bl = true ↔ cbRange a < |a.baseline - bl| := by
  rw [lt_abs]
  simp only [cb_neq_int, cb_eq_int, Bool.not_eq_true', Bool.and_eq_false_iff,
    decide_eq_false_iff_not, not_le]
  omega

/-- C1 counterexample. The claim states that the even-channel comparison in
the ADC-swap detection of afe_dbs::boot is the noise-tolerant baseline
equality. On the source, the even case calls
channel_baseline::operator==(channel_baseline), which compares the two
baseline fields exactly. For a 14-bit channel with the default 0.5 percent
noise whose baselines are 100 and 101 (equal within the 81-count noise
range, so an even channel that failed to move), the source does not flag
the channel while the claim says it is flagged. -/
theorem c1_swap_detect_cex :
    swap_flag 0 cbA cbB = false ∧ swappedClaimSpec 0 cbA cbB = true := by
  constructor
  · rfl
  · simp only [swappedClaimSpec, noiseTolEqSpec, cbA, cbB]
    norm_num

/-- C1 amended. In afe_dbs::boot a channel is flagged swapped exactly when:
for an even channel, the before and after baselines are EXACTLY equal as
integers (operator==(channel_baseline) has no noise tolerance); for an odd
channel, the before baseline differs from the after baseline value by MORE
than the noise range, the int cast of (2 to the adc_bits) times
noise_percent / 100 (or 1 when noise_percent is not positive, default
noise_percent 0.5). -/
theorem c1_swap_detect_amended (chan : ℕ) (a b : ChannelBaseline) :
    swap_flag chan a b = true ↔
      (if chan % 2 = 0 then a.baseline = b.baseline
       else cbRange a < |a.baseline - b.baseline|) := by
  by_cases h : chan % 2 = 0
  · simp [swap_flag, h, cb_eq_cb]
  · simp only [swap_flag, if_neg h, cb_neq_cb]
    exact cb_neq_int_iff a b.baseline

/-- C8 counterexample. The claim states that operator!= on another
channel_baseline returns the negation of operator== on that same
channel_baseline. At baselines 100 and 101 (14 bits, 0.5 percent noise)
both operators return false: != is the negation of the noise-tolerant int
comparison, while == is exact equality, so they are not mutual
negations. -/
theorem c8_neq_operator_cex :
    cb_neq_cb cbA cbB = false ∧ cb_eq_cb cbA cbB = false := by
  have h1 : cb_eq_int cbA (101 : ℤ) = true := by
    rw [cb_eq_int, cbRange_cbA]
    decide
  constructor
  · show (!(cb_eq_int cbA cbB.baseline)) = false
    rw [show cbB.baseline = (101 : ℤ) from rfl, h1]
    rfl
  · rfl

/-- C8 amended. operator!=(channel_baseline) terminates without
self-recursion: the body compares *this with other.baseline, an int, so it
resolves to the int overload and returns the negation of the
noise-tolerant comparison of this baseline against the OTHER baseline
value. It is however not the negation of operator==(channel_baseline),
because that operator compares the two baseline fields exactly. -/
theorem c8_neq_operator_amended (a b : ChannelBaseline) :
    (cb_neq_cb a b = true ↔ cbRange a < |a.baseline - b.baseline|) ∧
    (cb_eq_cb a b = true ↔ a.baseline = b.baseline) := by
  refine ⟨cb_neq_int_iff a b.baseline, ?_⟩
  simp [cb_eq_cb]

/-- C10. The claim states every sample maps to a bin index strictly below
2 to the adc_bits, with samples at or above full scale clamped to the top
bin. The source of channel_baseline::update clamps only samples STRICTLY
greater than bins.size(): after start sizes the histogram of a 14-bit
channel to 16384 bins, a sample equal to 16384 is passed through unchanged
and the increment indexes one past the end of the vector (out-of-bounds
write in the C++ source), while a sample of 16385 is clamped to 16383 as
the claim describes. -/
theorem c10_update_clamp_bug :
    (cb_start (cbMake (1 / 2)) 0 14).bins.length = 2 ^ 14 ∧
    update_bin_index (2 ^ 14) (2 ^ 14) = 2 ^ 14 ∧
    update_bin_index (2 ^ 14) (2 ^ 14 + 1) = 2 ^ 14 - 1 := by
  refine ⟨?_, ?_, ?_⟩
  · simp only [cb_start, List.length_replicate]
  · decide
  · decide

/-- Scanning for the maximum keeps the best index inside any bound that
contains the start index and every scanned index. -/
lemma argmaxStep_foldl_lt (l L : List ℕ) (acc n : ℕ) (hacc : acc < n)
    (hL : ∀ x ∈ L, x < n) : L.foldl (argmaxStep l) acc < n := by
  induction L generalizing acc with
  | nil => exact hacc
  | cons x xs ih =>
    rw [List.foldl_cons]
    refine ih (argmaxStep l acc x) ?_ (fun y hy => hL y (by simp [hy]))
    rw [argmaxStep]
    split
    · exact hL x (by simp)
    · exact hacc

/-- The index of the first maximal bin is a valid index of a nonempty bin
vector. -/
lemma argmaxFirst_lt (l : List ℕ) (h : 0 < l.length) :
    argmaxFirst l < l.length :=
  argmaxStep_foldl_lt l (List.range l.length) 0 l.length h
    (fun _ hx => List.mem_range.mp hx)

/-- The count at the best index never decreases as the scan advances. -/
lemma argmaxStep_foldl_ge (l L : List ℕ) (acc : ℕ) :
    l.getD acc 0 ≤ l.getD (L.foldl (argmaxStep l) acc) 0 := by
  induction L generalizing acc with
  | nil => exact le_refl _
  | cons x xs ih =>
    rw [List.foldl_cons]
    refine le_trans ?_ (ih (argmaxStep l acc x))
    rw [argmaxStep]
    split
    · exact le_of_lt (by assumption)
    · exact le_refl _

/-- Every scanned index has a count at most the count at the final best
index. -/
lemma argmaxStep_foldl_mem (l L : List ℕ) (acc j : ℕ) (hj : j ∈ L) :
    l.getD j 0 ≤ l.getD (L.foldl (argmaxStep l) acc) 0 := by
  induction L generalizing acc with
  | nil => cases hj
  | cons x xs ih =>
    rw [List.foldl_cons]
    rcases List.mem_cons.mp hj with h | h
    · subst h
      refine le_trans ?_ (argmaxStep_foldl_ge l xs (argmaxStep l acc j))
      rw [argmaxStep]
      split
      · exact le_refl _
      · exact le_of_not_lt (by assumption)
    · exact ih _ h

/-- argmaxFirst indeed locates a max-count bucket: every bucket count is at
most the count at the returned index. -/
lemma argmaxFirst_attains (l : List ℕ) (j : ℕ) (hj : j < l.length) :
    l.getD j 0 ≤ l.getD (argmaxFirst l) 0 :=
  argmaxStep_foldl_mem l (List.range l.length) 0 j (List.mem_range.mpr hj)

/-- A left-to-right accumulation loop over the index interval
[a, a + n) is the finite sum over that interval. -/
lemma sum_map_range' (f : ℕ → ℕ) (a n : ℕ) :
    ((List.range' a n).map f).sum = ∑ b ∈ Finset.Ico a (a + n), f b := by
  induction n generalizing a with
  | zero => simp
  | succ n ih =>
    have hab : a < a + (n + 1) := by omega
    rw [List.range'_succ, List.map_cons, List.sum_cons, ih (a + 1),
        show a + 1 + n = a + (n + 1) from by omega,
        Finset.sum_eq_sum_Ico_succ_bot hab f]

/-- C4. channel_baseline::end computes exactly the estimate the claim
describes: with the bins sized to 2 to the adc_bits (as
channel_baseline::start guarantees), the baseline is the integer weighted
mean of b times count over the buckets b in the half-open interval from
max(0, m - 30) to min(2 to the adc_bits, m + 30), where m is the index of
the (first) max-count bucket and noise_bins = 30. -/
theorem c4_baseline_end (bins : List ℕ) (adc_bits : ℕ)
    (h : bins.length = 2 ^ adc_bits) :
    cbEnd bins = cbEndSpec adc_bits bins := by
  have hpos : 0 < bins.length := by
    rw [h]; exact pow_pos (by norm_num) _
  have hm : argmaxFirst bins < bins.length := argmaxFirst_lt bins hpos
  have hle : argmaxFirst bins - 30 ≤ min (argmaxFirst bins + 30) bins.length := by
    omega
  have hto : (argmaxFirst bins - 30) +
      (min (argmaxFirst bins + 30) bins.length - (argmaxFirst bins - 30)) =
      min (argmaxFirst bins + 30) bins.length := by omega
  simp only [cbEnd, cbEndSpec, ← h]
  rw [sum_map_range', sum_map_range', hto]

/-- C4 witness: a 2-bit histogram with counts 1, 3, 2, 0. -/
theorem c4_baseline_end_witness :
    ([1, 3, 2, 0] : List ℕ).length = 2 ^ 2 ∧
    cbEnd [1, 3, 2, 0] = cbEndSpec 2 [1, 3, 2, 0] :=
  ⟨by decide, c4_baseline_end [1, 3, 2, 0] 2 (by decide)⟩

/-- Folding linear_fit::update over a sample list accumulates exactly the
sums of the list, starting from any fit state. -/
lemma lfFold_from (l : List (ℤ × ℤ)) (f : LinearFit) :
    l.foldl (fun g p => lf_update g p.1 p.2) f =
      { k := f.k, c := f.c,
        sum_x := f.sum_x + sumX l, sum_y := f.sum_y + sumY l,
        sum_xy := f.sum_xy + sumXY l, sum_x_sq := f.sum_x_sq + sumXX l,
        count := f.count + l.length } := by
  induction l generalizing f with
  | nil => simp [sumX, sumY, sumXY, sumXX]
  | cons p l ih =>
    rw [List.foldl_cons, ih]
    simp only [lf_update, sumX, sumY, sumXY, sumXX, List.map_cons,
      List.sum_cons, List.length_cons, LinearFit.mk.injEq, true_and]
    refine ⟨by ring, by ring, by ring, by ring, by omega⟩

/-- The fit state after recording a sample list is the componentwise sum
over the list. -/
lemma lfFold_eq (l : List (ℤ × ℤ)) :
    lfFold l = ⟨0, 0, sumX l, sumY l, sumXY l, sumXX l, l.length⟩ := by
  rw [lfFold, lfFold_from]
  simp [lf_init]

/-- Recording one more sample extends the recorded list. -/
lemma lfFold_append (l : List (ℤ × ℤ)) (p : ℤ × ℤ) :
    lfFold (l ++ [p]) = lf_update (lfFold l) p.1 p.2 := by
  rw [lfFold, lfFold, List.foldl_append]
  rfl

/-- linear_fit::calc followed by linear_fit::y over an accumulated sample
list computes the least-squares formulas of claim C3 over that list. -/
lemma lf_calc_y_eq (L : List (ℤ × ℤ)) (t : ℤ) :
    lf_y (lf_calc (lfFold L)) t = specLSDac L t := by
  rw [lfFold_eq]
  simp only [lf_calc, lf_y, specLSDac, lsK, lsC, lsDivisor]

/-- C3. Per-channel step of afe_dbs::adjust_offsets for a channel whose
fit has recorded the samples in prior: when the measured baseline differs
noise-tolerantly from the target, the (baseline, DAC) pair is recorded;
with fewer than 2 recorded samples the DAC moves by the fixed step 200,
subtracted when the target exceeds the baseline and added otherwise (the
sign is a function of the sign of target minus baseline); with 2 or more
samples the DAC is set to k times target plus c with k and c the
least-squares formulas of the claim computed over all recorded pairs, the
double result truncated to int. -/
theorem c3_adjust_offsets_step (prior : List (ℤ × ℤ)) (bl : ChannelBaseline)
    (adc_target dac : ℤ) (h : cb_neq_int bl adc_target = true) :
    adjust_channel_step bl adc_target (lfFold prior) dac =
      (lfFold (prior ++ [(bl.baseline, dac)]),
       if prior.length + 1 < 2 then
         (if adc_target > bl.baseline then dac - 200 else dac + 200)
       else specLSDac (prior ++ [(bl.baseline, dac)]) adc_target,
       true) := by
  have hfit : lf_update (lfFold prior) bl.baseline dac =
      lfFold (prior ++ [(bl.baseline, dac)]) :=
    (lfFold_append prior (bl.baseline, dac)).symm
  have hcount : (lfFold (prior ++ [(bl.baseline, dac)])).count =
      prior.length + 1 := by
    rw [lfFold_eq]
    simp
  simp only [adjust_channel_step, h, if_true]
  rw [hfit, hcount]
  by_cases hlt : prior.length + 1 < 2
  · simp [hlt]
  · rw [if_neg hlt, if_neg hlt, lf_calc_y_eq]

/-- C3 witness: first sample for a channel (noise range 1) with baseline
100, target 500, DAC 1000: the pair is recorded and the DAC is nudged down
by 200. -/
theorem c3_adjust_offsets_step_witness :
    cb_neq_int cbW 500 = true ∧
    adjust_channel_step cbW 500 (lfFold []) 1000 =
      (lfFold ([] ++ [(cbW.baseline, 1000)]),
       if ([] : List (ℤ × ℤ)).length + 1 < 2 then
         (if (500 : ℤ) > cbW.baseline then 1000 - 200 else 1000 + 200)
       else specLSDac ([] ++ [(cbW.baseline, 1000)]) 500,
       true) :=
  ⟨by decide, c3_adjust_offsets_step [] cbW 500 1000 (by decide)⟩

/-- Once the accumulated kind is a failure, the first-error fold never
changes it again. -/
lemma firstErrorFold_stuck (l : List ErrorCode) (acc : ErrorCode)
    (h : acc ≠ ErrorCode.success) :
    l.foldl (fun a e => if a = ErrorCode.success then e else a) acc = acc := by
  induction l with
  | nil => rfl
  | cons e l ih =>
    rw [List.foldl_cons, if_neg h]
    exact ih

/-- The first-error fold of crate::boot computes the first non-success
kind in join order, or success when every worker succeeded. -/
lemma firstErrorFold_eq_find (l : List ErrorCode) :
    firstErrorFold l =
      match l.find? (fun e => !(e == ErrorCode.success)) with
      | some e => e
      | none => ErrorCode.success := by
  induction l with
  | nil => rfl
  | cons e l ih =>
    rw [firstErrorFold, List.foldl_cons, if_pos rfl]
    by_cases he : e = ErrorCode.success
    · subst he
      rw [List.find?_cons_of_neg _ (by simp)]
      exact ih
    · rw [List.find?_cons_of_pos _ (by simp [he])]
      exact firstErrorFold_stuck l e he

/-- C2 counterexample. The claim states that after joining all workers the
Backplane is reinitialized with the resulting online and offline split,
and that the call then fails with the first reported kind. On the source,
the throw of the first error (crate.cpp line 251) happens BEFORE
backplane.reinit (line 254): booting one offline module whose worker
reports module_offline fails with that kind and never reaches the
backplane reinitialization. -/
theorem c2_boot_cex :
    crate_boot_model true [{ revision := 15, online := false }] []
      (fun _ => ErrorCode.module_offline) =
    { workers := 1, result := Except.error ErrorCode.module_offline,
      backplane_reinit := false } := rfl

/-- C2 amended. crate::boot spawns one worker per target module (the
requested modules minus those with revision 0 and, without force, those
already online); if any worker reported a non-success kind the call fails
with the FIRST such kind, in join order, and the Backplane is NOT
reinitialized; only when every worker succeeded does the call return
success and reinitialize the Backplane. -/
theorem c2_boot_amended (force : Bool) (mods : List ModState) (pmods : List ℕ)
    (outcome : ℕ → ErrorCode)
    (hvalid : pmods.all (fun n => decide (n < mods.length)) = true) :
    crate_boot_model force mods pmods outcome =
      { workers := (bootTargets force mods pmods).length,
        result :=
          match ((bootTargets force mods pmods).map outcome).find?
              (fun e => !(e == ErrorCode.success)) with
          | some e => Except.error e
          | none => Except.ok (),
        backplane_reinit :=
          (((bootTargets force mods pmods).map outcome).find?
              (fun e => !(e == ErrorCode.success))).isNone } := by
  simp only [List.all_eq_true, decide_eq_true_eq] at hvalid
  have hany : pmods.any (fun n => decide (mods.length ≤ n)) = false := by
    rw [List.any_eq_false]
    intro x hx
    have hx2 := hvalid x hx
    simp only [decide_eq_true_eq]
    omega
  simp only [crate_boot_model, hany, Bool.false_eq_true, if_false,
    firstErrorFold_eq_find]
  cases hf : ((bootTargets force mods pmods).map outcome).find?
      (fun e => !(e == ErrorCode.success)) with
  | none => simp
  | some e =>
    have hne : e ≠ ErrorCode.success := by
      have := List.find?_some hf
      simpa using this
    simp [hne]

/-- C2 witness: one offline module, boot of all modules, worker
succeeding. -/
theorem c2_boot_amended_witness :
    ([] : List ℕ).all
      (fun n => decide (n < ([{ revision := 15, online := false }] :
        List ModState).length)) = true ∧
    crate_boot_model true [{ revision := 15, online := false }] []
        (fun _ => ErrorCode.success) =
      { workers := (bootTargets true [{ revision := 15, online := false }] []).length,
        result :=
          match ((bootTargets true [{ revision := 15, online := false }] []).map
              (fun _ => ErrorCode.success)).find?
              (fun e => !(e == ErrorCode.success)) with
          | some e => Except.error e
          | none => Except.ok (),
        backplane_reinit :=
          (((bootTargets true [{ revision := 15, online := false }] []).map
              (fun _ => ErrorCode.success)).find?
              (fun e => !(e == ErrorCode.success))).isNone } :=
  ⟨rfl, c2_boot_amended true [{ revision := 15, online := false }] []
    (fun _ => ErrorCode.success) rfl⟩

/-- C5. The claim (and the spec) state that shutdown surfaces the kind of
the FIRST captured close failure. The source stores each caught kind into
first_error without the guard that crate::boot uses, so a later failure
overwrites an earlier one: with two modules whose close calls fail with
module_offline and then internal_failure, shutdown throws
internal_failure, the LAST kind, not the first. The variable name
first_error and the sibling pattern in crate::boot and
crate::initialize_afe show the intent is the first kind: the code is the
slip. -/
theorem c5_shutdown_last_error_bug :
    crate_shutdown_model
        [some ErrorCode.module_offline, some ErrorCode.internal_failure] =
      Except.error ErrorCode.internal_failure ∧
    crate_shutdown_model [some ErrorCode.module_offline, none] =
      Except.error ErrorCode.module_offline := ⟨rfl, rfl⟩

/-- C7 counterexample. The claim states every listed crate entrypoint
throws crate_not_ready when the crate is not initialized. The source of
crate::export_config takes the lock and exports without any ready check,
so with the ready flag false it does not throw crate_not_ready. -/
theorem c7_export_config_no_ready_cex :
    crate_export_config_entry false = Except.ok () := rfl

/-- C7 amended. With the ready flag false: probe, assign, set_firmware,
import_config and initialize_afe throw crate_not_ready; boot throws
crate_not_ready unless it was called with a non-empty explicit module list
containing an out-of-range number, in which case the validation that runs
before the ready check throws module_number_invalid; export_config
performs no ready check at all and proceeds. -/
theorem c7_ready_gate_amended :
    crate_probe_entry false = Except.error ErrorCode.crate_not_ready ∧
    crate_assign_entry false = Except.error ErrorCode.crate_not_ready ∧
    crate_set_firmware_entry false = Except.error ErrorCode.crate_not_ready ∧
    crate_import_config_entry false = Except.error ErrorCode.crate_not_ready ∧
    crate_initialize_afe_entry false = Except.error ErrorCode.crate_not_ready ∧
    (∀ (num_modules : ℕ) (pmods : List ℕ),
      crate_boot_entry false num_modules pmods =
        if !pmods.isEmpty && pmods.any (fun m => decide (num_modules ≤ m)) then
          Except.error ErrorCode.module_number_invalid
        else Except.error ErrorCode.crate_not_ready) ∧
    crate_export_config_entry false = Except.ok () := by
  refine ⟨rfl, rfl, rfl, rfl, rfl, ?_, rfl⟩
  intro nm pmods
  cases pmods with
  | nil => rfl
  | cons p ps =>
    rw [crate_boot_entry]
    simp only [List.isEmpty_cons, Bool.not_false, Bool.true_and, if_false,
      Bool.false_eq_true]
    by_cases h : (p :: ps).any (fun m => decide (nm ≤ m))
    · simp [h]
    · simp [h, ready_check]

/-- C6. db04::set_dac rejects values above 65535 with invalid_value;
otherwise it selects port number + 1, writes to CFG_DAC exactly the
command word of the claim - (addr shifted left 24) or (ctrl shifted left
16) or value, with addr = 0x20 or (2 when the DB channel offset is below
4, else 0) and ctrl = 0x30 + sigma(offset) for the claimed output mapping
sigma - and then sleeps 6000 microseconds, which is the claimed at least
6 ms. -/
theorem c6_db04_set_dac (number offset value : ℕ) :
    db04_set_dac number offset value =
      if value > 65535 then Except.error ErrorCode.invalid_value
      else Except.ok { port := number + 1, word := db04WordSpec offset value,
                       wait_us := 6000 } := by
  have hctrl : db04_dac_ctrl offset = 0x30 + sigmaDb04 offset := by
    rcases offset with _|_|_|_|_|_|_|_|n <;> rfl
  have haddr : (0x20 ||| ((if offset < 4 then 1 else 0) <<< 1) : ℕ) =
      0x20 ||| (if offset < 4 then 2 else 0) := by
    by_cases h4 : offset < 4
    · rw [if_pos h4, if_pos h4]
      rfl
    · rw [if_neg h4, if_neg h4]
      rfl
  rw [db04_set_dac]
  by_cases h : value > 65535
  · rw [if_pos h, if_pos h]
  · rw [if_neg h, if_neg h]
    simp only []
    rw [db04WordSpec, hctrl, haddr]

/-- C9 counterexample. The claim states a short channel-variable array is
extended by replicating the element at index 0 until num_channels channels
are covered, and each retained element written. For a variable of size 2
on a 2-channel module with the 2-element array [5, 6] (one channel worth
of data), the source pushes only ONE copy of element 0 - one per missing
channel, not one per missing element - so the extended array has 3
elements, covers only 1 full channel, and channel 1 receives no write at
all: only the two writes of channel 0 are performed, while the claim
requires channel 1 to be covered. -/
theorem c9_channel_var_import_cex :
    import_channel_var 2 2 [5, 6] = some [(0, 0, 5), (0, 1, 6)] := rfl

/-- Mapping a singleton-producing function and flattening is a plain
map. -/
lemma flatMap_singleton {α β : Type} (L : List α) (g : α → β) :
    (L.flatMap fun a => [g a]) = L.map g := by
  induction L with
  | nil => rfl
  | cons a L ih => simp [List.flatMap_cons, ih]

/-- A filter whose predicate holds on every index below n keeps all of
List.range n. -/
lemma filter_range_eq_self (n : ℕ) (p : ℕ → Bool) (h : ∀ i, i < n → p i = true) :
    (List.range n).filter p = List.range n := by
  rw [List.filter_eq_self]
  intro a ha
  exact h a (List.mem_range.mp ha)

/-- C9 amended. For a channel variable of size 1 - one element per
channel, the shape the claim describes - the source behaves as claimed:
the array is extended by replicating element 0 until num_channels
channels are covered, elements beyond num_channels are truncated, and
each retained element is written through write_var with io = false. For
var_size above 1 the extension pushes only one element per missing
channel, under-filling the array (see the counterexample), and an array
whose length is not a multiple of var_size is skipped with a warning. -/
theorem c9_channel_var_import_amended (num_channels : ℕ) (values : List ℕ)
    (_h : 0 < values.length) :
    import_channel_var 1 num_channels values =
      some (importChannelVarSpec num_channels values) := by
  rw [import_channel_var, if_pos (Nat.mod_one _)]
  simp only [Nat.div_one, mul_one, importChannelVarSpec]
  by_cases hlt : values.length < num_channels
  · rw [if_pos hlt]
    have hext : (values ++
        List.replicate (num_channels - values.length) (values.getD 0 0)).length =
        num_channels := by
      simp only [List.length_append, List.length_replicate]
      omega
    rw [hext, filter_range_eq_self _ _ (fun i hi => by
      simp only [Bool.and_eq_true, decide_eq_true_eq]
      exact ⟨hi, hi⟩)]
    simp only [show List.range 1 = [0] from rfl, List.map_cons, List.map_nil]
    rw [flatMap_singleton]
    refine congrArg some (List.map_congr_left ?_)
    intro ch hch
    have hch2 := List.mem_range.mp hch
    simp only [add_zero]
    by_cases hcl : ch < values.length
    · rw [if_pos hcl, List.getD_append _ _ _ _ hcl]
    · rw [if_neg hcl, List.getD_eq_getElem?_getD, List.getElem?_append,
        if_neg hcl, List.getElem?_replicate, if_pos (by omega)]
      rfl
  · rw [if_neg hlt]
    rw [filter_range_eq_self _ _ (fun i hi => by
      simp only [Bool.and_eq_true, decide_eq_true_eq]
      exact ⟨by omega, by omega⟩)]
    simp only [show List.range 1 = [0] from rfl, List.map_cons, List.map_nil]
    rw [flatMap_singleton]
    refine congrArg some (List.map_congr_left ?_)
    intro ch hch
    have hch2 := List.mem_range.mp hch
    rw [add_zero, if_pos (by omega)]

/-- C9 witness: a 1-element array for a 3-channel module, variable size 1:
channels 1 and 2 receive the replicated element at index 0. -/
theorem c9_channel_var_import_witness :
    0 < ([7, 9] : List ℕ).length ∧
    import_channel_var 1 3 [7, 9] = some (importChannelVarSpec 3 [7, 9]) :=
  ⟨by decide, c9_channel_var_import_amended 3 [7, 9] (by decide)⟩

end PixieSDK
